import Mathlib

/-!
Verification of the MT4-report-to-Pine-Script converter core
(`src/services/tradeProcessor.ts`, `src/constants.ts`).

The TypeScript source is shallowly embedded:
* JavaScript numbers are modelled as `Option ℚ` (`none` models `NaN`);
  the comparison operators return `false` whenever an operand is `NaN`,
  exactly as in JavaScript.  `Infinity` literals are not modelled; no
  claim depends on them.
* `Date` values are modelled as `Int` seconds since the Unix epoch (all
  quantities the program produces are whole seconds, so the millisecond
  resolution of JS `Date` is irrelevant).
* `parseMT4DateToUTC` returns `new Date()` (current wall-clock time) when
  its unanchored regular expression finds no match; this is modelled by
  the constructor `ParseResult.fallbackNow`, and the call sites receive
  an explicit `now : Int` parameter standing for the wall-clock reading.
* The HTML document handed to `DOMParser` is modelled at the level the
  parser actually uses it: a list of rows, each a list of cell texts
  (`cells[i].textContent`).
* JS `Array.prototype.sort` (required stable since ES2019) is modelled by
  `List.insertionSort`, which is stable; `Map` and plain objects used as
  dictionaries are modelled by insertion-ordered association lists with
  in-place value update, matching JS iteration-order semantics.
* `classifyAndGroupTrades` sorts its argument array in place; the model
  therefore returns, next to the grouping, the post-call contents of the
  caller's array.
-/

namespace MT4

/-- A JavaScript number: `none` models `NaN`. -/
abbrev JSNum := Option ℚ

/-- JS `>` : false when either side is `NaN`. -/
def jsGt : JSNum → JSNum → Bool
  | some a, some b => a > b
  | _, _ => false

/-- JS `>=` : false when either side is `NaN`. -/
def jsGe : JSNum → JSNum → Bool
  | some a, some b => a ≥ b
  | _, _ => false

/-- JS `<=` : false when either side is `NaN`. -/
def jsLe : JSNum → JSNum → Bool
  | some a, some b => a ≤ b
  | _, _ => false

/-- JS unary minus (`-NaN = NaN`). -/
def jsNeg : JSNum → JSNum := Option.map (fun q => -q)

/-! ## Regular-expression match for `(\d{4})\.(\d{2})\.(\d{2}) (\d{2}):(\d{2}):(\d{2})`

The source regex is *unanchored*: `String.prototype.match` returns the
leftmost occurrence of the fixed-shape pattern.  The pattern has no
variable-length parts, so matching at a given start position is
deterministic. -/

def digitVal (c : Char) : Nat := c.toNat - '0'.toNat

/-- Read exactly `n` decimal digits, returning their value and the rest. -/
def readDigits : Nat → Nat → List Char → Option (Nat × List Char)
  | 0, acc, cs => some (acc, cs)
  | _ + 1, _, [] => none
  | n + 1, acc, c :: cs =>
    if c.isDigit then readDigits n (acc * 10 + digitVal c) cs else none

/-- Expect one literal character. -/
def expectChar : Char → List Char → Option (List Char)
  | _, [] => none
  | c, x :: xs => if x = c then some xs else none

/-- The six captured fields: year, month, day, hours, minutes, seconds. -/
abbrev TSFields := Nat × Nat × Nat × Nat × Nat × Nat

/-- Try to match the timestamp pattern starting at the head of `cs`. -/
def matchTimestampAt (cs : List Char) : Option TSFields := do
  let (y, cs) ← readDigits 4 0 cs
  let cs ← expectChar '.' cs
  let (mo, cs) ← readDigits 2 0 cs
  let cs ← expectChar '.' cs
  let (d, cs) ← readDigits 2 0 cs
  let cs ← expectChar ' ' cs
  let (hh, cs) ← readDigits 2 0 cs
  let cs ← expectChar ':' cs
  let (mi, cs) ← readDigits 2 0 cs
  let cs ← expectChar ':' cs
  let (ss, _) ← readDigits 2 0 cs
  pure (y, mo, d, hh, mi, ss)

/-- Leftmost match of the timestamp pattern, as `String.prototype.match`
with the unanchored regex finds it. -/
def regexSearchTS : List Char → Option TSFields
  | [] => none
  | c :: cs =>
    match matchTimestampAt (c :: cs) with
    | some r => some r
    | none => regexSearchTS cs

/-! ## Calendar arithmetic (proleptic Gregorian, as JS `Date` UTC math) -/

/-- Days from the civil epoch 1970-01-01 for a date with `m ∈ [1,12]`. -/
def daysFromCivil (y m d : Int) : Int :=
  let y := y - (if m ≤ 2 then 1 else 0)
  let era := Int.fdiv y 400
  let yoe := y - era * 400
  let doy := Int.fdiv (153 * (m + (if m > 2 then -3 else 9)) + 2) 5 + d - 1
  let doe := yoe * 365 + Int.fdiv yoe 4 - Int.fdiv yoe 100 + doy
  era * 146097 + doe - 719468

/-- Inverse of `daysFromCivil`: (year, month `1..12`, day). -/
def civilFromDays (z : Int) : Int × Int × Int :=
  let z := z + 719468
  let era := Int.fdiv z 146097
  let doe := z - era * 146097
  let yoe :=
    Int.fdiv (doe - Int.fdiv doe 1460 + Int.fdiv doe 36524 - Int.fdiv doe 146096) 365
  let y := yoe + era * 400
  let doy := doe - (365 * yoe + Int.fdiv yoe 4 - Int.fdiv yoe 100)
  let mp := Int.fdiv (5 * doy + 2) 153
  let d := doy - Int.fdiv (153 * mp + 2) 5 + 1
  let m := mp + (if mp < 10 then 3 else -9)
  (y + (if m ≤ 2 then 1 else 0), m, d)

/-- JS `MakeDay`: the month argument `m0` is 0-based and may lie outside
`0..11`; it rolls over into the year. -/
def epochDaysJS (y m0 d : Int) : Int :=
  let ym := y + Int.fdiv m0 12
  let mn := m0 - 12 * Int.fdiv m0 12
  daysFromCivil ym (mn + 1) 1 + (d - 1)

/-- `Date.UTC(y, m0, d, hh, mm, ss)` in whole seconds since the epoch.
JS maps a year argument in `0..99` to `1900 + y`. -/
def jsDateUTC (y m0 d hh mm ss : Int) : Int :=
  let yy := if 0 ≤ y ∧ y ≤ 99 then 1900 + y else y
  86400 * epochDaysJS yy m0 d + 3600 * hh + 60 * mm + ss

/-! ## Configuration constants (`src/constants.ts`) -/

def MT4_UTC_OFFSET : Int := 3
def TV_UTC_OFFSET : Int := -6
def TV_TIMESTAMP_CORRECTION_HOURS : Int := 2

/-! ## `parseMT4DateToUTC` -/

/-- Result of `parseMT4DateToUTC`: either the computed UTC instant, or the
source's fallback `new Date()` — the current wall-clock time. -/
inductive ParseResult where
  | parsed (t : Int)
  | fallbackNow
deriving DecidableEq, Repr

/-- `parseMT4DateToUTC` with the server offset as a parameter (the source
reads the module constant `MT4_UTC_OFFSET`; `setUTCHours(get - off)`
subtracts exactly `off` hours). -/
def parseMT4DateToUTCWith (mt4Offset : Int) (dateStr : String) : ParseResult :=
  match regexSearchTS dateStr.data with
  | none => ParseResult.fallbackNow
  | some (y, mo, d, hh, mi, ss) =>
    ParseResult.parsed
      (jsDateUTC (y : Int) ((mo : Int) - 1) (d : Int) (hh : Int) (mi : Int) (ss : Int)
        - 3600 * mt4Offset)

def parseMT4DateToUTC (dateStr : String) : ParseResult :=
  parseMT4DateToUTCWith MT4_UTC_OFFSET dateStr

/-- Reading a `ParseResult` as an instant: the fallback branch yields the
current wall-clock time `now`. -/
def timeOf (now : Int) : ParseResult → Int
  | ParseResult.parsed t => t
  | ParseResult.fallbackNow => now

/-! ## `convertToPineScriptTimestamp` -/

structure PineScriptTimestamp where
  year : Int
  month : Int
  day : Int
  hours : Int
  minutes : Int
deriving DecidableEq, Repr

/-- Calendar/clock fields of an instant `t` (seconds since epoch), as the
`getUTC*` readouts produce them; `month` is already 1-based here, matching
`getUTCMonth() + 1` in the source. -/
def pineFieldsOf (t : Int) : PineScriptTimestamp :=
  let days := Int.fdiv t 86400
  let secs := t - 86400 * days
  let c := civilFromDays days
  { year := c.1
    month := c.2.1
    day := c.2.2
    hours := Int.fdiv secs 3600
    minutes := Int.fdiv (secs - 3600 * Int.fdiv secs 3600) 60 }

/-- `convertToPineScriptTimestamp` with the chart offset and correction as
parameters; `setUTCHours(get + (tv + corr))` adds exactly that many hours. -/
def convertToPineScriptTimestampWith (tvOffset corr : Int) (t : Int) : PineScriptTimestamp :=
  pineFieldsOf (t + 3600 * (tvOffset + corr))

def convertToPineScriptTimestamp (t : Int) : PineScriptTimestamp :=
  convertToPineScriptTimestampWith TV_UTC_OFFSET TV_TIMESTAMP_CORRECTION_HOURS t

/-- The composition the claims call the "display timestamp": parse, then
project; `none` is the branch where the source would have used the current
wall-clock time. -/
def displayTimestampWith (mt4Offset tvOffset corr : Int) (s : String) :
    Option PineScriptTimestamp :=
  match parseMT4DateToUTCWith mt4Offset s with
  | ParseResult.parsed t => some (convertToPineScriptTimestampWith tvOffset corr t)
  | ParseResult.fallbackNow => none

/-! ## `parseFloat`

JS `parseFloat` skips leading whitespace and converts the longest prefix
that is a valid decimal literal; it returns `NaN` (here `none`) when no
such prefix exists.  (`Infinity` literals are not modelled; no claim
depends on them.) -/

def isWS (c : Char) : Bool :=
  c = ' ' ∨ c = '\t' ∨ c = '\n' ∨ c = '\r'

/-- JS `String.prototype.trim` (the reports are ASCII; only ASCII
whitespace is modelled). -/
def jsTrim (s : String) : String :=
  String.mk (((s.data.dropWhile isWS).reverse.dropWhile isWS).reverse)

/-- JS `String.prototype.toLowerCase` (ASCII). -/
def jsToLower (s : String) : String := String.mk (s.data.map Char.toLower)

/-- JS `String.prototype.toUpperCase` (ASCII). -/
def jsToUpper (s : String) : String := String.mk (s.data.map Char.toUpper)

/-- Greedily read a decimal-digit prefix: value, digit count, rest. -/
def readDigitsPrefix : List Char → Nat → Nat → Nat × Nat × List Char
  | [], acc, n => (acc, n, [])
  | c :: cs, acc, n =>
    if c.isDigit then readDigitsPrefix cs (acc * 10 + digitVal c) (n + 1)
    else (acc, n, c :: cs)

/-- The multiplicative factor contributed by a valid exponent-part prefix
(`e`/`E`, optional sign, at least one digit); `1` when absent/invalid. -/
def expFactor (cs : List Char) : ℚ :=
  match cs with
  | 'e' :: rest | 'E' :: rest =>
    let (neg, rest') :=
      match rest with
      | '+' :: r => (false, r)
      | '-' :: r => (true, r)
      | r => (false, r)
    let (e, n, _) := readDigitsPrefix rest' 0 0
    if n = 0 then 1
    else if neg then 1 / 10 ^ e else 10 ^ e
  | _ => 1

/-- Unsigned part of a JS decimal literal (longest valid prefix). -/
def parseUnsigned (cs : List Char) : Option ℚ :=
  let (ip, ni, cs1) := readDigitsPrefix cs 0 0
  match cs1 with
  | '.' :: cs2 =>
    let (fp, nf, cs3) := readDigitsPrefix cs2 0 0
    if ni = 0 ∧ nf = 0 then none
    else some ((((ip : ℚ) * 10 ^ nf + (fp : ℚ)) / 10 ^ nf) * expFactor cs3)
  | _ => if ni = 0 then none else some ((ip : ℚ) * expFactor cs1)

/-- JS `parseFloat`, on our `NaN`-aware number model. -/
def jsParseFloat (s : String) : JSNum :=
  match s.data.dropWhile isWS with
  | '+' :: rest => parseUnsigned rest
  | '-' :: rest => (parseUnsigned rest).map (fun q => -q)
  | cs => parseUnsigned cs

/-! ## Trade records and the report parser (`parseMT4Report`)

The DOM document is modelled as the parser consumes it: the list of `tr`
rows, each row the list of its `td` cell texts. -/

inductive TradeType where
  | buy
  | sell
deriving DecidableEq, Repr

def TradeType.toStr : TradeType → String
  | TradeType.buy => "buy"
  | TradeType.sell => "sell"

structure Trade where
  ticket : String
  openTimeRaw : String
  type : TradeType
  size : JSNum
  item : String
  openPrice : JSNum
  closeTimeRaw : String
  closePrice : JSNum
  profit : JSNum
deriving DecidableEq, Repr

/-- A table row: the text contents of its cells. -/
abbrev Row := List String

/-- Does `pat` occur as a contiguous run inside `hay`? -/
def listContains (hay pat : List Char) : Bool :=
  match hay with
  | [] => pat.isEmpty
  | _ :: cs => pat.isPrefixOf hay || listContains cs pat

/-- JS `String.prototype.includes`. -/
def strContains (s pat : String) : Bool := listContains s.data pat.data

/-- `cells[i].textContent` (never null in the model). -/
def cellText (r : Row) (i : Nat) : String := r.getD i ""

/-- The row whose first cell announces the closed-transactions section. -/
def isClosedMarker (r : Row) : Bool :=
  decide (0 < r.length) && strContains (cellText r 0) "Closed Transactions:"

/-- The row at which scanning terminates. -/
def isStopMarker (r : Row) : Bool :=
  decide (0 < r.length) &&
    (strContains (cellText r 0) "Open Trades:" || strContains (cellText r 0) "Working Orders:")

/-- A numeric cell: `parseFloat(text.trim() || '0')` — the empty string is
falsy, so it is replaced by `'0'` before parsing. -/
def numField (s : String) : JSNum :=
  jsParseFloat (if jsTrim s = "" then "0" else jsTrim s)

/-- `cells[2].textContent?.trim().toLowerCase()` compared to buy/sell. -/
def rowType (r : Row) : Option TradeType :=
  let t := jsToLower (jsTrim (cellText r 2))
  if t = "buy" then some TradeType.buy
  else if t = "sell" then some TradeType.sell
  else none

/-- Field extraction for an accepted candidate row (source lines 71-81). -/
def rowToTrade (r : Row) (ty : TradeType) : Trade :=
  { ticket := jsTrim (cellText r 0)
    openTimeRaw := jsTrim (cellText r 1)
    type := ty
    size := numField (cellText r 3)
    item := jsToLower (jsTrim (cellText r 4))
    openPrice := numField (cellText r 5)
    closeTimeRaw := jsTrim (cellText r 8)
    closePrice := numField (cellText r 9)
    profit := numField (cellText r 13) }

/-- The row loop of `parseMT4Report`: the closed-marker test comes first
and `continue`s, the stop test `break`s, and only 14-cell rows inside the
closed section whose type cell is buy/sell and whose item is non-empty
produce a trade. -/
def parseRows : List Row → Bool → List Trade
  | [], _ => []
  | r :: rs, inClosed =>
    if isClosedMarker r then parseRows rs true
    else if isStopMarker r then []
    else if inClosed && decide (r.length = 14) then
      match rowType r with
      | none => parseRows rs inClosed
      | some ty =>
        let t := rowToTrade r ty
        if t.item ≠ "" then t :: parseRows rs inClosed else parseRows rs inClosed
    else parseRows rs inClosed

def parseMT4Report (rows : List Row) : List Trade := parseRows rows false

/-! ## `classifyAndGroupTrades`

`grouped` is a plain JS object used as a dictionary and `uniqueWinnersMap`
a JS `Map`; both iterate in key-insertion order and update values in
place, which an association list models exactly.  `allTrades.sort(...)`
sorts the caller's array *in place* with a comparator on the parsed open
time; ES2019 requires the sort to be stable, which `List.insertionSort`
with this relation is.  The `new Date()` fallback inside the comparator is
the wall-clock parameter `now`. -/

structure TradeGroup where
  winners : List Trade
  breakeven : List Trade
  losers : List Trade
deriving DecidableEq, Repr

def emptyGroup : TradeGroup := ⟨[], [], []⟩

abbrev GroupedTrades := List (String × TradeGroup)

/-- `grouped[item]`, with a missing key read as the empty group the source
would have just created. -/
def groupOf : GroupedTrades → String → TradeGroup
  | [], _ => emptyGroup
  | (k, v) :: rest, i => if k = i then v else groupOf rest i

/-- Update the entry for `item` in place, creating it from the empty group
when absent (the source's `if (!grouped[trade.item]) grouped[...] = ...`). -/
def updateAssoc : GroupedTrades → String → (TradeGroup → TradeGroup) → GroupedTrades
  | [], item, f => [(item, f emptyGroup)]
  | (k, v) :: rest, item, f =>
    if k = item then (k, f v) :: rest else (k, v) :: updateAssoc rest item f

/-- The open-time sort key: `parseMT4DateToUTC(t.openTimeRaw).getTime()`. -/
def sortKeyOf (now : Int) (t : Trade) : Int :=
  timeOf now (parseMT4DateToUTC t.openTimeRaw)

/-- The in-place stable sort `allTrades.sort((a, b) => keyA - keyB)`. -/
def sortTrades (now : Int) (l : List Trade) : List Trade :=
  l.insertionSort (fun a b => sortKeyOf now a ≤ sortKeyOf now b)

/-- The classification if-chain (source lines 112-118). -/
def bucketAdd (tol : JSNum) (t : Trade) (g : TradeGroup) : TradeGroup :=
  if jsGt t.profit tol then { g with winners := g.winners ++ [t] }
  else if jsGe t.profit (jsNeg tol) && jsLe t.profit tol then
    { g with breakeven := g.breakeven ++ [t] }
  else { g with losers := g.losers ++ [t] }

def insertTrade (tol : JSNum) (g : GroupedTrades) (t : Trade) : GroupedTrades :=
  updateAssoc g t.item (bucketAdd tol t)

/-- The bucketing loop over the sorted trades. -/
def bucketTrades (trades : List Trade) (tol : JSNum) : GroupedTrades :=
  trades.foldl (insertTrade tol) []

/-- The winner-deduplication key: the source builds the string
`openTimeRaw + "_" + openPrice`; a JS number's string never contains an
underscore, so that string is injective in the pair and the pair is used
directly. -/
def dedupKey (t : Trade) : String × JSNum := (t.openTimeRaw, t.openPrice)

abbrev WinnersMap := List ((String × JSNum) × Trade)

/-- `Map.prototype.get`. -/
def mapGet : WinnersMap → String × JSNum → Option Trade
  | [], _ => none
  | (k, v) :: rest, key => if k = key then some v else mapGet rest key

/-- `Map.prototype.set`: updating an existing key keeps its position;
a new key is appended. -/
def mapSet : WinnersMap → String × JSNum → Trade → WinnersMap
  | [], key, v => [(key, v)]
  | (k, w) :: rest, key, v =>
    if k = key then (k, v) :: rest else (k, w) :: mapSet rest key v

/-- One step of the dedup loop (source lines 126-132):
`if (!existing || winner.profit > existing.profit) set`. -/
def dedupStep (m : WinnersMap) (w : Trade) : WinnersMap :=
  match mapGet m (dedupKey w) with
  | none => mapSet m (dedupKey w) w
  | some existing =>
    if jsGt w.profit existing.profit then mapSet m (dedupKey w) w else m

def dedupFold (ws : List Trade) : WinnersMap := ws.foldl dedupStep []

/-- `Array.from(map.values())` followed by the re-sort (lines 133-135). -/
def dedupWinners (now : Int) (ws : List Trade) : List Trade :=
  ((dedupFold ws).map (fun e => e.2)).insertionSort
    (fun a b => sortKeyOf now a ≤ sortKeyOf now b)

/-- The `for (const item in grouped)` pass replacing each winners list. -/
def dedupGroups (now : Int) (g : GroupedTrades) : GroupedTrades :=
  g.map (fun e => (e.1, { e.2 with winners := dedupWinners now e.2.winners }))

/-- `classifyAndGroupTrades`.  The second component is the post-call
contents of the caller's `allTrades` array, which the source sorts in
place. -/
def classifyAndGroupTrades (now : Int) (allTrades : List Trade) (beTolerance : JSNum) :
    GroupedTrades × List Trade :=
  let sorted := sortTrades now allTrades
  (dedupGroups now (bucketTrades sorted beTolerance), sorted)

/-! ## Number formatting used by the script generator -/

/-- Two decimal digits, zero-padded. -/
def pad2 (n : Nat) : String :=
  String.mk [Nat.digitChar (n / 10 % 10), Nat.digitChar (n % 10)]

/-- `Number.prototype.toFixed(2)` for a non-`NaN` value: the ES algorithm
strips the sign, picks the integer `n` with `n / 100` closest to the
magnitude (ties towards the larger `n`), and prints `n` with a decimal
point before its last two digits. -/
def ratToFixed2 (q : ℚ) : String :=
  let sgn := if q < 0 then "-" else ""
  let n : Nat := (⌊|q| * 100 + 1 / 2⌋).toNat
  sgn ++ toString (n / 100) ++ "." ++ pad2 (n % 100)

/-- `toFixed(2)` on the `NaN`-aware number model. -/
def jsToFixed2 : JSNum → String
  | none => "NaN"
  | some q => ratToFixed2 q

/-- Decimal digits of a fraction in `[0,1)`, at most `k` of them. -/
def fracDigits : Nat → ℚ → List Char
  | 0, _ => []
  | k + 1, r =>
    if r = 0 then []
    else
      let r10 := r * 10
      let d := (⌊r10⌋).toNat
      Nat.digitChar d :: fracDigits k (r10 - (d : ℚ))

/-- JS number-to-string for interpolated prices.  Exact for terminating
decimals of up to 20 fractional digits, which covers every value the
program ever interpolates; JS's shortest-round-trip float printing is not
modelled further, and no claim depends on these digits. -/
def jsNumToStr : JSNum → String
  | none => "NaN"
  | some q =>
    let sgn := if q < 0 then "-" else ""
    let ip : Nat := (⌊|q|⌋).toNat
    let fd := fracDigits 20 (|q| - (ip : ℚ))
    sgn ++ toString ip ++ (if fd.isEmpty then "" else "." ++ String.mk fd)

/-! ## `generatePineScriptForItem` -/

/-- The `timestamp(y, m, d, hh, mm)` call text. -/
def tsCall (p : PineScriptTimestamp) : String :=
  "timestamp(" ++ toString p.year ++ ", " ++ toString p.month ++ ", " ++
    toString p.day ++ ", " ++ toString p.hours ++ ", " ++ toString p.minutes ++ ")"

/-- `convertToPineScriptTimestamp(parseMT4DateToUTC(trade.openTimeRaw))`. -/
def openTS (now : Int) (t : Trade) : PineScriptTimestamp :=
  convertToPineScriptTimestamp (timeOf now (parseMT4DateToUTC t.openTimeRaw))

/-- `convertToPineScriptTimestamp(parseMT4DateToUTC(trade.closeTimeRaw))`. -/
def closeTS (now : Int) (t : Trade) : PineScriptTimestamp :=
  convertToPineScriptTimestamp (timeOf now (parseMT4DateToUTC t.closeTimeRaw))

/-- The tooltip template:
`Ticket: ... \nType: ... \nProfit: ...` with a literal backslash-n
(the Pine line-break escape) between fields. -/
def tooltipOf (t : Trade) : String :=
  "Ticket: " ++ t.ticket ++ "\\nType: " ++ t.type.toStr ++ "\\nProfit: " ++
    jsToFixed2 t.profit

def winnerComment (t : Trade) : String := "    // Winner: " ++ t.ticket ++ "\n"

def winnerLabelOpen (now : Int) (t : Trade) : String :=
  "    label.new(" ++ tsCall (openTS now t) ++ ", " ++ jsNumToStr t.openPrice ++
    ", style=label.style_diamond, color=color.new(color.green, 20), textcolor=color.green, size=iconSize, tooltip=\"" ++
    tooltipOf t ++ "\", xloc=xloc.bar_time, yloc=yloc.price)\n"

def winnerLabelClose (now : Int) (t : Trade) : String :=
  "    label.new(" ++ tsCall (closeTS now t) ++ ", " ++ jsNumToStr t.closePrice ++
    ", style=label.style_diamond, color=color.new(color.green, 20), textcolor=color.green, size=iconSize, tooltip=\"" ++
    tooltipOf t ++ "\", xloc=xloc.bar_time, yloc=yloc.price)\n"

def winnerLine (now : Int) (t : Trade) : String :=
  "    line.new(" ++ tsCall (openTS now t) ++ ", " ++ jsNumToStr t.openPrice ++
    ", " ++ tsCall (closeTS now t) ++ ", " ++ jsNumToStr t.closePrice ++
    ", color=color.new(color.white, 50), style=line.style_dotted, width=1, xloc=xloc.bar_time, yloc=yloc.price)\n"

/-- One winner's contribution to `winnersCode`. -/
def winnerBlock (now : Int) (t : Trade) : String :=
  winnerComment t ++ winnerLabelOpen now t ++ winnerLabelClose now t ++ winnerLine now t

def breakevenComment (t : Trade) : String := "    // Break Even: " ++ t.ticket ++ "\n"

def breakevenLabel (now : Int) (t : Trade) : String :=
  "    label.new(" ++ tsCall (openTS now t) ++ ", " ++ jsNumToStr t.openPrice ++
    ", style=label.style_circle, color=color.new(color.blue, 20), textcolor=color.blue, size=iconSize, tooltip=\"" ++
    tooltipOf t ++ "\", xloc=xloc.bar_time, yloc=yloc.price)\n"

/-- One breakeven trade's contribution to `breakevenCode`. -/
def breakevenBlock (now : Int) (t : Trade) : String :=
  breakevenComment t ++ breakevenLabel now t

def loserComment (t : Trade) : String := "    // Loser: " ++ t.ticket ++ "\n"

/-- `trade.type === 'buy' ? 'label.style_arrowup' : 'label.style_arrowdown'`. -/
def loserStyle (t : Trade) : String :=
  match t.type with
  | TradeType.buy => "label.style_arrowup"
  | TradeType.sell => "label.style_arrowdown"

def loserLabel (now : Int) (t : Trade) : String :=
  "    label.new(" ++ tsCall (openTS now t) ++ ", " ++ jsNumToStr t.openPrice ++
    ", style=" ++ loserStyle t ++
    ", color=color.new(color.red, 20), textcolor=color.red, size=iconSize, tooltip=\"" ++
    tooltipOf t ++ "\", xloc=xloc.bar_time, yloc=yloc.price)\n"

/-- One loser's contribution to `losersCode`. -/
def loserBlock (now : Int) (t : Trade) : String :=
  loserComment t ++ loserLabel now t

/-- The fixed header template (source lines 151-163). -/
def pineHeader (item : String) : String :=
  "//@version=5\nindicator(\"" ++ jsToUpper item ++
    " Trades from Report\", overlay=true, scale=scale.price)\n\n// --- INPUTS ---\nvar string size_tiny = \"tiny\"\nvar string size_small = \"small\"\nvar string size_normal = \"normal\"\nvar string size_large = \"large\"\nvar string size_huge = \"huge\"\nvar iconSize = input.string(size_normal, \"Icon Size\", options=[size_tiny, size_small, size_normal, size_large, size_huge])\n\nif barstate.islast\n"

/-- `generatePineScriptForItem`: the header followed by the three
accumulation loops `winnersCode`, `breakevenCode`, `losersCode`. -/
def generatePineScriptForItem (now : Int) (item : String) (data : TradeGroup) : String :=
  pineHeader item
    ++ data.winners.foldl (fun acc t => acc ++ winnerBlock now t) ""
    ++ data.breakeven.foldl (fun acc t => acc ++ breakevenBlock now t) ""
    ++ data.losers.foldl (fun acc t => acc ++ loserBlock now t) ""

/-! ## Right-associated remainders of the drawing statements

Each drawing statement is one flat concatenation in the source; these
definitions name everything that follows its `label.new(` / `line.new(`
opener, so the statements' shapes can be stated without existentials. -/

def winnerLabelOpenRest (now : Int) (t : Trade) : String :=
  tsCall (openTS now t) ++ (", " ++ (jsNumToStr t.openPrice ++
    (", style=label.style_diamond, color=color.new(color.green, 20), textcolor=color.green, size=iconSize, tooltip=\"" ++
      (tooltipOf t ++ "\", xloc=xloc.bar_time, yloc=yloc.price)\n"))))

def winnerLabelCloseRest (now : Int) (t : Trade) : String :=
  tsCall (closeTS now t) ++ (", " ++ (jsNumToStr t.closePrice ++
    (", style=label.style_diamond, color=color.new(color.green, 20), textcolor=color.green, size=iconSize, tooltip=\"" ++
      (tooltipOf t ++ "\", xloc=xloc.bar_time, yloc=yloc.price)\n"))))

def winnerLineRest (now : Int) (t : Trade) : String :=
  tsCall (openTS now t) ++ (", " ++ (jsNumToStr t.openPrice ++ (", " ++
    (tsCall (closeTS now t) ++ (", " ++ (jsNumToStr t.closePrice ++
      ", color=color.new(color.white, 50), style=line.style_dotted, width=1, xloc=xloc.bar_time, yloc=yloc.price)\n"))))))

def breakevenLabelRest (now : Int) (t : Trade) : String :=
  tsCall (openTS now t) ++ (", " ++ (jsNumToStr t.openPrice ++
    (", style=label.style_circle, color=color.new(color.blue, 20), textcolor=color.blue, size=iconSize, tooltip=\"" ++
      (tooltipOf t ++ "\", xloc=xloc.bar_time, yloc=yloc.price)\n"))))

def loserLabelRest (now : Int) (t : Trade) : String :=
  tsCall (openTS now t) ++ (", " ++ (jsNumToStr t.openPrice ++ (", style=" ++
    (loserStyle t ++
      (", color=color.new(color.red, 20), textcolor=color.red, size=iconSize, tooltip=\"" ++
        (tooltipOf t ++ "\", xloc=xloc.bar_time, yloc=yloc.price)\n"))))))

/-! ## Derived predicates and projections used in the statements -/

/-- `trade.profit > beTolerance` — the winners branch guard. -/
def isWin (tol : JSNum) (t : Trade) : Bool := jsGt t.profit tol

/-- The breakeven branch guard (reached when the winners guard failed). -/
def isBE (tol : JSNum) (t : Trade) : Bool :=
  !jsGt t.profit tol && (jsGe t.profit (jsNeg tol) && jsLe t.profit tol)

/-- The losers (else) branch. -/
def isLose (tol : JSNum) (t : Trade) : Bool :=
  !jsGt t.profit tol && !(jsGe t.profit (jsNeg tol) && jsLe t.profit tol)

/-- The per-key projection of the dedup loop: fold the keep-the-strictly-
more-profitable update over the trades sharing one key. -/
def keepStep (acc : Option Trade) (w : Trade) : Option Trade :=
  match acc with
  | none => some w
  | some ex => if jsGt w.profit ex.profit then some w else some ex

def keepFoldFrom (acc : Option Trade) (l : List Trade) : Option Trade :=
  l.foldl keepStep acc

def keepFold (l : List Trade) : Option Trade := keepFoldFrom none l

/-- Well-formedness of the winners map: keys are pairwise distinct and
every entry is stored under its trade's own dedup key. -/
def mapWF (m : WinnersMap) : Prop :=
  (m.map (fun e => e.1)).Nodup ∧ ∀ e ∈ m, dedupKey e.2 = e.1

/-! ## Concrete fixtures used by witnesses and counterexamples -/

/-- A raw timestamp that the source regex accepts. -/
def rawTS : String := "2024.01.10 10:00:00"

/-- A concrete trade template. -/
def mkTrade (ticket : String) (price profit : ℚ) : Trade :=
  { ticket := ticket
    openTimeRaw := rawTS
    type := TradeType.buy
    size := some 1
    item := "x"
    openPrice := some price
    closeTimeRaw := rawTS
    closePrice := some 1
    profit := some profit }

/-- Three winning trades with identical open instants; `tA` and `tC` share
the dedup key, `tB` has a different open price. -/
def tA : Trade := mkTrade "A" 1 1
def tB : Trade := mkTrade "B" 2 5
def tC : Trade := mkTrade "C" 1 9

/-- Two trades whose open instants are out of order. -/
def tEarly : Trade :=
  { mkTrade "early" 1 1 with openTimeRaw := "2024.01.09 10:00:00" }
def tLate : Trade := mkTrade "late" 1 1

/-- A trade whose profit equals the tolerance used in the boundary
scenario. -/
def tEdge : Trade := { mkTrade "edge" 1 5 with item := "y" }

/-- Two winning trades sharing the dedup key with profits 10 and 15. -/
def tDup1 : Trade := mkTrade "dup1" 1 10
def tDup2 : Trade := mkTrade "dup2" 1 15

/-- Two winning trades sharing the dedup key and tied on profit. -/
def tTie1 : Trade := mkTrade "tie1" 3 7
def tTie2 : Trade := mkTrade "tie2" 3 7

/-- A 14-cell candidate row whose size cell is non-empty but not a number. -/
def sizeNaNRow : Row :=
  ["1", "2024.01.10 10:00:00", "buy", "abc", "eurusd", "1.1", "", "",
    "2024.01.10 11:00:00", "1.2", "", "", "", "50"]

/-- The row announcing the closed-transactions section. -/
def closedRow : Row := ["Closed Transactions:"]

/-- A row whose first cell contains both the closed marker and a stop
marker; the source treats it as a closed marker and keeps scanning. -/
def dualMarkerRow : Row := ["Closed Transactions: Open Trades:"]

/-- A plain stop row. -/
def stopRow : Row := ["Open Trades:"]

/-- A winner whose numeric fields are all `NaN`; its drawing statements
render with the literal text `NaN`, keeping every character of the
generated statements computable. -/
def tNaN : Trade :=
  { ticket := "777"
    openTimeRaw := rawTS
    type := TradeType.buy
    size := none
    item := "x"
    openPrice := none
    closeTimeRaw := rawTS
    closePrice := none
    profit := none }

/-! # Theorems -/

theorem jsGt_irrefl (a : JSNum) : jsGt a a = false := by
  cases a <;> simp [jsGt]

/-! ## Stability of the insertion sort under filters

A stable sort leaves the relative order of elements with equal keys
untouched; equivalently, filtering the sorted list by any predicate that
only selects elements no earlier in the order than everything it rejects
gives the same list as filtering the input. -/

theorem filter_orderedInsert_pos {α : Type} (r : α → α → Prop) [DecidableRel r]
    (p : α → Bool) (t : α) (hp : p t = true) (h : ∀ u, ¬r t u → p u = false) :
    ∀ l : List α, (List.orderedInsert r t l).filter p = t :: l.filter p
  | [] => by simp [List.orderedInsert, hp]
  | b :: l => by
    rw [List.orderedInsert]
    by_cases hrb : r t b
    · simp [hrb, List.filter_cons, hp]
    · have hb : p b = false := h b hrb
      simp [hrb, List.filter_cons, hb, filter_orderedInsert_pos r p t hp h l]

theorem filter_orderedInsert_neg {α : Type} (r : α → α → Prop) [DecidableRel r]
    (p : α → Bool) (t : α) (hp : p t = false) :
    ∀ l : List α, (List.orderedInsert r t l).filter p = l.filter p
  | [] => by simp [List.orderedInsert, hp]
  | b :: l => by
    rw [List.orderedInsert]
    by_cases hrb : r t b
    · simp [hrb, List.filter_cons, hp]
    · simp [hrb, List.filter_cons, filter_orderedInsert_neg r p t hp l]

theorem filter_insertionSort {α : Type} (r : α → α → Prop) [DecidableRel r]
    (p : α → Bool) (h : ∀ a b, p a = true → ¬r a b → p b = false) :
    ∀ l : List α, (List.insertionSort r l).filter p = l.filter p
  | [] => rfl
  | a :: l => by
    rw [List.insertionSort]
    by_cases ha : p a = true
    · rw [filter_orderedInsert_pos r p a ha (fun u hu => h a u ha hu),
        filter_insertionSort r p h l,
        List.filter_cons_of_pos ha]
    · rw [filter_orderedInsert_neg r p a (by simpa using ha), filter_insertionSort r p h l,
        List.filter_cons_of_neg (by simpa using ha)]

/-! ## C1 -/

/-- C1: the claim requires `parseMT4DateToUTC` to fail with an explicit
`MalformedTimestamp` error on a string the timestamp pattern does not
match.  The source instead takes the `new Date()` branch, silently
substituting the current wall-clock time; the model records that branch as
`ParseResult.fallbackNow`, which this theorem shows is what a malformed
input produces. -/
theorem parseMT4Date_malformed_falls_back_to_now :
    parseMT4DateToUTC "not a timestamp" = ParseResult.fallbackNow := by decide

/-! ## C4 -/

/-- C4: for every timestamp string the source regex accepts, the
parse-then-project composition is a pure function of the offsets, and it
is offset-linear: raising the server offset (`MT4_UTC_OFFSET`) by one hour
moves the display timestamp one hour earlier, and raising the chart offset
(`TV_UTC_OFFSET`, with the correction held fixed) by one hour moves it one
hour later. -/
theorem display_timestamp_offset_linear (mt4 tv corr : Int) (s : String) (t : Int)
    (h : parseMT4DateToUTCWith mt4 s = ParseResult.parsed t) :
    displayTimestampWith mt4 tv corr s = some (pineFieldsOf (t + 3600 * (tv + corr))) ∧
    displayTimestampWith (mt4 + 1) tv corr s =
      some (pineFieldsOf (t + 3600 * (tv + corr) - 3600)) ∧
    displayTimestampWith mt4 (tv + 1) corr s =
      some (pineFieldsOf (t + 3600 * (tv + corr) + 3600)) := by
  rcases hr : regexSearchTS s.data with _ | ⟨y, mo, d, hh, mi, ss⟩
  · rw [parseMT4DateToUTCWith, hr] at h
    cases h
  · rw [parseMT4DateToUTCWith, hr] at h
    have hv : jsDateUTC (y : Int) ((mo : Int) - 1) (d : Int) (hh : Int) (mi : Int) (ss : Int)
        - 3600 * mt4 = t := ParseResult.parsed.inj h
    refine ⟨?_, ?_, ?_⟩ <;>
      · simp only [displayTimestampWith, parseMT4DateToUTCWith, hr,
          convertToPineScriptTimestampWith]
        congr 2
        omega

/-- Witness for C4 at a concrete accepted timestamp and the source's
default offsets. -/
theorem display_timestamp_offset_linear_witness :
    parseMT4DateToUTCWith 3 rawTS = ParseResult.parsed 1704870000 ∧
    (displayTimestampWith 3 (-6) 2 rawTS =
        some (pineFieldsOf (1704870000 + 3600 * (-6 + 2))) ∧
      displayTimestampWith (3 + 1) (-6) 2 rawTS =
        some (pineFieldsOf (1704870000 + 3600 * (-6 + 2) - 3600)) ∧
      displayTimestampWith 3 (-6 + 1) 2 rawTS =
        some (pineFieldsOf (1704870000 + 3600 * (-6 + 2) + 3600))) :=
  ⟨by decide, display_timestamp_offset_linear 3 (-6) 2 rawTS 1704870000 (by decide)⟩

/-! ## C6 -/

/-- The scan never looks past a row that triggers the `break`: a stop row
that is not also a closed marker truncates the document, in any state. -/
theorem parseRows_stop_aux (r : Row) (h1 : isStopMarker r = true)
    (h2 : isClosedMarker r = false) (post : List Row) :
    ∀ (pre : List Row) (b : Bool),
      parseRows (pre ++ r :: post) b = parseRows (pre ++ [r]) b := by
  intro pre
  induction pre with
  | nil =>
    intro b
    simp [parseRows, h1, h2]
  | cons p pre ih =>
    intro b
    by_cases hc : isClosedMarker p
    · simpa [List.cons_append, parseRows, hc] using ih true
    · by_cases hs : isStopMarker p
      · simp [List.cons_append, parseRows, hc, hs]
      · by_cases hin : (b && decide (p.length = 14)) = true
        · rcases hty : rowType p with _ | ty
          · simpa [List.cons_append, parseRows, hc, hs, hin, hty] using ih b
          · by_cases hit : (rowToTrade p ty).item = ""
            · simpa [List.cons_append, parseRows, hc, hs, hin, hty, hit] using ih b
            · simpa [List.cons_append, parseRows, hc, hs, hin, hty, hit] using ih b
        · simpa [List.cons_append, parseRows, hc, hs, hin] using ih b

/-- C6 (amended): no row after a row whose first cell contains
`"Open Trades:"` or `"Working Orders:"` — *and does not also contain*
`"Closed Transactions:"` — contributes a trade: the parse of the whole
document equals the parse that ends at the stop row.  (The extra proviso
is forced by the counterexample: the closed-marker test runs first and
`continue`s, so a first cell containing both markers never reaches the
`break`.) -/
theorem no_trades_after_stop_row (pre post : List Row) (r : Row)
    (h1 : isStopMarker r = true) (h2 : isClosedMarker r = false) :
    parseMT4Report (pre ++ r :: post) = parseMT4Report (pre ++ [r]) :=
  parseRows_stop_aux r h1 h2 post pre false

/-- Witness for C6 (amended): a document whose stop row is followed by a
qualifying trade row parses identically to the document truncated at the
stop row. -/
theorem no_trades_after_stop_row_witness :
    parseMT4Report ([closedRow] ++ stopRow :: [sizeNaNRow]) =
      parseMT4Report ([closedRow] ++ [stopRow]) :=
  no_trades_after_stop_row [closedRow] [sizeNaNRow] stopRow (by decide) (by decide)

/-- Counterexample to C6 as stated: a row whose first cell contains
`"Open Trades:"` (it also contains `"Closed Transactions:"`) is followed
by a 14-cell buy row, and that later row still contributes a trade. -/
theorem row_after_stop_marker_contributes :
    isStopMarker dualMarkerRow = true ∧
    (parseMT4Report [dualMarkerRow, sizeNaNRow]).map Trade.ticket = ["1"] := by decide

/-! ## C5 -/

/-- C5 (amended): an accepted candidate row is kept whatever its numeric
cells hold; a numeric cell whose trimmed text is empty defaults to `0`,
while non-empty text is handed to `parseFloat`, so text that fails to
parse yields `NaN` (modelled `none`) — not `0` as claimed. -/
theorem numeric_cells_lenient (r : Row) (ty : TradeType)
    (hc : isClosedMarker r = false) (hs : isStopMarker r = false)
    (hlen : r.length = 14) (hty : rowType r = some ty)
    (hitem : (rowToTrade r ty).item ≠ "") :
    parseMT4Report [closedRow, r] = [rowToTrade r ty] ∧
    ((rowToTrade r ty).size = numField (cellText r 3) ∧
      (rowToTrade r ty).openPrice = numField (cellText r 5) ∧
      (rowToTrade r ty).closePrice = numField (cellText r 9) ∧
      (rowToTrade r ty).profit = numField (cellText r 13)) ∧
    (∀ s : String, jsTrim s = "" → numField s = some 0) ∧
    (∀ s : String, jsTrim s ≠ "" → numField s = jsParseFloat (jsTrim s)) := by
  refine ⟨?_, ⟨rfl, rfl, rfl, rfl⟩, ?_, ?_⟩
  · have hmark : isClosedMarker closedRow = true := by decide
    have hstop : isStopMarker closedRow = false := by decide
    simp [parseMT4Report, parseRows, hmark, hc, hs, hlen, hty, hitem]
  · intro s hsemp
    rw [numField, if_pos hsemp]
    have h1 : "0".data = ['0'] := rfl
    simp [jsParseFloat, h1, List.dropWhile, isWS, parseUnsigned, readDigitsPrefix, digitVal,
      expFactor]
  · intro s hsne
    rw [numField, if_neg hsne]

/-- Witness for C5 (amended), at a row whose size cell reads `"abc"`. -/
theorem numeric_cells_lenient_witness :
    parseMT4Report [closedRow, sizeNaNRow] = [rowToTrade sizeNaNRow TradeType.buy] :=
  (numeric_cells_lenient sizeNaNRow TradeType.buy (by decide) (by decide) (by decide)
    (by decide) (by decide)).1

/-- Counterexample to C5 as stated: the accepted row's size cell `"abc"`
fails to parse, and the kept trade's size is `NaN` (`none`), not `0`. -/
theorem unparseable_cell_yields_nan :
    (parseMT4Report [closedRow, sizeNaNRow]).map Trade.size = [none] ∧
    jsParseFloat "abc" = none ∧ (none : JSNum) ≠ some 0 := by decide

/-! ## The classifier's bucket structure -/

theorem keyRel_total (now : Int) :
    IsTotal Trade (fun a b => sortKeyOf now a ≤ sortKeyOf now b) :=
  ⟨fun _ _ => le_total _ _⟩

theorem keyRel_trans (now : Int) :
    IsTrans Trade (fun a b => sortKeyOf now a ≤ sortKeyOf now b) :=
  ⟨fun _ _ _ => le_trans⟩

theorem groupOf_updateAssoc (g : GroupedTrades) (item i : String)
    (f : TradeGroup → TradeGroup) :
    groupOf (updateAssoc g item f) i =
      if item = i then f (groupOf g i) else groupOf g i := by
  induction g with
  | nil => by_cases h : item = i <;> simp [updateAssoc, groupOf, h]
  | cons e g ih =>
    obtain ⟨k, v⟩ := e
    by_cases hk : k = item <;> by_cases hi : k = i
    · have hii : item = i := hk ▸ hi
      simp [updateAssoc, groupOf, hk, hi, hii]
    · have hii : ¬item = i := fun h => hi (hk.trans h)
      simp [updateAssoc, groupOf, hk, hi, hii]
    · have hii : ¬item = i := fun h => hk (hi.trans h.symm)
      have hik : ¬i = item := fun h => hii h.symm
      simp [updateAssoc, groupOf, hk, hi, hii, hik]
    · simp [updateAssoc, groupOf, hk, hi, ih]

theorem groupOf_bucket_foldl (tol : JSNum) :
    ∀ (l : List Trade) (g : GroupedTrades) (i : String),
      groupOf (l.foldl (insertTrade tol) g) i =
        { winners :=
            (groupOf g i).winners ++ l.filter (fun t => decide (t.item = i) && isWin tol t)
          breakeven :=
            (groupOf g i).breakeven ++ l.filter (fun t => decide (t.item = i) && isBE tol t)
          losers :=
            (groupOf g i).losers ++ l.filter (fun t => decide (t.item = i) && isLose tol t) }
  | [], g, i => by simp
  | t :: l, g, i => by
    rw [List.foldl_cons, groupOf_bucket_foldl tol l _ i]
    rw [insertTrade, groupOf_updateAssoc]
    by_cases hit : t.item = i
    · rw [if_pos hit]
      by_cases hw : jsGt t.profit tol
      · simp [bucketAdd, hw, isWin, isBE, isLose, List.filter_cons, hit, List.append_assoc]
      · by_cases hge : jsGe t.profit (jsNeg tol)
        · by_cases hle : jsLe t.profit tol
          · simp [bucketAdd, hw, hge, hle, isWin, isBE, isLose, List.filter_cons, hit,
              List.append_assoc]
          · simp [bucketAdd, hw, hge, hle, isWin, isBE, isLose, List.filter_cons, hit,
              List.append_assoc]
        · simp [bucketAdd, hw, hge, isWin, isBE, isLose, List.filter_cons, hit,
            List.append_assoc]
    · rw [if_neg hit]
      simp [List.filter_cons, hit]

theorem groupOf_bucketTrades (l : List Trade) (tol : JSNum) (i : String) :
    groupOf (bucketTrades l tol) i =
      { winners := l.filter (fun t => decide (t.item = i) && isWin tol t)
        breakeven := l.filter (fun t => decide (t.item = i) && isBE tol t)
        losers := l.filter (fun t => decide (t.item = i) && isLose tol t) } := by
  rw [bucketTrades, groupOf_bucket_foldl]
  simp [groupOf, emptyGroup]

theorem groupOf_dedupGroups (now : Int) (g : GroupedTrades) (i : String) :
    groupOf (dedupGroups now g) i =
      { winners := dedupWinners now (groupOf g i).winners
        breakeven := (groupOf g i).breakeven
        losers := (groupOf g i).losers } := by
  induction g with
  | nil =>
    simp only [dedupGroups, List.map_nil, groupOf]
    rfl
  | cons e g ih =>
    obtain ⟨k, v⟩ := e
    by_cases hk : k = i
    · simp [dedupGroups, groupOf, hk]
    · simpa [dedupGroups, groupOf, hk] using ih

/-! ## C9 -/

/-- C9 (amended): `classifyAndGroupTrades` is *not* free of side effects
on its argument: `allTrades.sort(...)` reorders the caller's array in
place.  What does hold: the post-call array is a permutation of the input
— the same trades, stably sorted by open instant — so only the order, not
the multiset of trades, is affected. -/
theorem classify_sorts_input_in_place (now : Int) (l : List Trade) (tol : JSNum) :
    ((classifyAndGroupTrades now l tol).2).Perm l ∧
    List.Sorted (fun a b => sortKeyOf now a ≤ sortKeyOf now b)
      ((classifyAndGroupTrades now l tol).2) := by
  constructor
  · exact List.perm_insertionSort _ l
  · haveI := keyRel_total now
    haveI := keyRel_trans now
    exact List.sorted_insertionSort _ l

/-- Counterexample to C9 as stated: two trades arrive with their open
instants out of order, and after the call the input array holds them in a
different order than before. -/
theorem classify_mutates_input :
    (classifyAndGroupTrades 0 [tLate, tEarly] (some 0)).2 ≠ [tLate, tEarly] := by decide

/-! ## C7 -/

/-- C7 (amended): in every returned group all three lists are ordered by
ascending open instant, and for the breakeven and losers lists the sort is
stable — trades with equal open instants keep their relative input order
(their key-`k` subsequence equals the input's).  The winners list is
re-sorted after deduplication and need not preserve input order among
equal instants (see the counterexample). -/
theorem groups_sorted_and_stable (now : Int) (l : List Trade) (tol : JSNum) (i : String) :
    List.Sorted (fun a b => sortKeyOf now a ≤ sortKeyOf now b)
      (groupOf ((classifyAndGroupTrades now l tol).1) i).winners ∧
    List.Sorted (fun a b => sortKeyOf now a ≤ sortKeyOf now b)
      (groupOf ((classifyAndGroupTrades now l tol).1) i).breakeven ∧
    List.Sorted (fun a b => sortKeyOf now a ≤ sortKeyOf now b)
      (groupOf ((classifyAndGroupTrades now l tol).1) i).losers ∧
    (∀ k : Int,
      (groupOf ((classifyAndGroupTrades now l tol).1) i).breakeven.filter
          (fun u => decide (sortKeyOf now u = k)) =
        (l.filter (fun t => decide (t.item = i) && isBE tol t)).filter
          (fun u => decide (sortKeyOf now u = k))) ∧
    (∀ k : Int,
      (groupOf ((classifyAndGroupTrades now l tol).1) i).losers.filter
          (fun u => decide (sortKeyOf now u = k)) =
        (l.filter (fun t => decide (t.item = i) && isLose tol t)).filter
          (fun u => decide (sortKeyOf now u = k))) := by
  haveI := keyRel_total now
  haveI := keyRel_trans now
  have hgrp :
      groupOf ((classifyAndGroupTrades now l tol).1) i =
        { winners :=
            dedupWinners now
              ((sortTrades now l).filter (fun t => decide (t.item = i) && isWin tol t))
          breakeven := (sortTrades now l).filter (fun t => decide (t.item = i) && isBE tol t)
          losers := (sortTrades now l).filter (fun t => decide (t.item = i) && isLose tol t) } := by
    show groupOf (dedupGroups now (bucketTrades (sortTrades now l) tol)) i = _
    rw [groupOf_dedupGroups, groupOf_bucketTrades]
  have hsorted : List.Sorted (fun a b => sortKeyOf now a ≤ sortKeyOf now b) (sortTrades now l) :=
    List.sorted_insertionSort _ l
  have hstable :
      ∀ (p : Trade → Bool) (k : Int),
        ((sortTrades now l).filter (fun t => decide (sortKeyOf now t = k) && p t)) =
          l.filter (fun t => decide (sortKeyOf now t = k) && p t) := by
    intro p k
    rw [sortTrades]
    refine filter_insertionSort _ _ ?_ l
    intro a b ha hr
    have hk : sortKeyOf now a = k :=
      of_decide_eq_true ((Bool.and_eq_true _ _).mp ha).1
    have hlt : sortKeyOf now b < sortKeyOf now a := lt_of_not_le hr
    have hbk : decide (sortKeyOf now b = k) = false := decide_eq_false (by omega)
    simp [hbk]
  rw [hgrp]
  refine ⟨?_, ?_, ?_, ?_, ?_⟩
  · exact List.sorted_insertionSort _ _
  · exact hsorted.sublist (List.filter_sublist _)
  · exact hsorted.sublist (List.filter_sublist _)
  · intro k
    rw [List.filter_filter, List.filter_filter]
    exact hstable (fun a => decide (a.item = i) && isBE tol a) k
  · intro k
    rw [List.filter_filter, List.filter_filter]
    exact hstable (fun a => decide (a.item = i) && isLose tol a) k

/-- Counterexample to C7 as stated: three winning trades share one open
instant; the input (and sorted) order is `A, B, C`, but after winner
deduplication the returned winners list is `[C, B]`, so the equal-instant
pair `B, C` no longer appears in input order. -/
theorem dedup_breaks_winner_stability :
    sortTrades 0 [tA, tB, tC] = [tA, tB, tC] ∧
    sortKeyOf 0 tB = sortKeyOf 0 tC ∧
    (groupOf ((classifyAndGroupTrades 0 [tA, tB, tC] (some 0)).1) "x").winners = [tC, tB] := by
  decide

theorem count_filter_eq {α : Type} [DecidableEq α] (p : α → Bool) (a : α) (l : List α) :
    (l.filter p).count a = if p a = true then l.count a else 0 := by
  by_cases h : p a = true
  · rw [if_pos h, List.count_filter h]
  · rw [if_neg h, List.count_eq_zero]
    simp only [List.mem_filter, not_and]
    intro _
    exact h

/-! ## C2 -/

/-- C2: the bucketing pass of `classifyAndGroupTrades` places every
occurrence of a trade in exactly one of the three lists of its item's
group, determined solely by its profit relative to a non-`NaN`,
non-negative tolerance: above the tolerance it is a winner, inside the
closed band `[-tolerance, tolerance]` (boundary included, so profit equal
to the tolerance is breakeven, not winner) it is breakeven, below the band
it is a loser; no other item's group ever holds it.  (Winner
deduplication, which runs afterwards, is deliberately outside this claim:
bucket membership is by profit only.) -/
theorem classification_partitions_by_profit (now : Int) (l : List Trade) (tol : JSNum)
    (q : ℚ) (t : Trade) (p : ℚ)
    (htol : tol = some q) (hq : 0 ≤ q) (hp : t.profit = some p) :
    ((groupOf (bucketTrades (sortTrades now l) tol) t.item).winners.count t +
        (groupOf (bucketTrades (sortTrades now l) tol) t.item).breakeven.count t +
        (groupOf (bucketTrades (sortTrades now l) tol) t.item).losers.count t
      = l.count t) ∧
    (q < p →
      (groupOf (bucketTrades (sortTrades now l) tol) t.item).winners.count t = l.count t ∧
      (groupOf (bucketTrades (sortTrades now l) tol) t.item).breakeven.count t = 0 ∧
      (groupOf (bucketTrades (sortTrades now l) tol) t.item).losers.count t = 0) ∧
    (-q ≤ p ∧ p ≤ q →
      (groupOf (bucketTrades (sortTrades now l) tol) t.item).winners.count t = 0 ∧
      (groupOf (bucketTrades (sortTrades now l) tol) t.item).breakeven.count t = l.count t ∧
      (groupOf (bucketTrades (sortTrades now l) tol) t.item).losers.count t = 0) ∧
    (p < -q →
      (groupOf (bucketTrades (sortTrades now l) tol) t.item).winners.count t = 0 ∧
      (groupOf (bucketTrades (sortTrades now l) tol) t.item).breakeven.count t = 0 ∧
      (groupOf (bucketTrades (sortTrades now l) tol) t.item).losers.count t = l.count t) ∧
    (∀ j, j ≠ t.item →
      t ∉ (groupOf (bucketTrades (sortTrades now l) tol) j).winners ∧
      t ∉ (groupOf (bucketTrades (sortTrades now l) tol) j).breakeven ∧
      t ∉ (groupOf (bucketTrades (sortTrades now l) tol) j).losers) := by
  have hsc : (sortTrades now l).count t = l.count t :=
    (List.perm_insertionSort (fun a b => sortKeyOf now a ≤ sortKeyOf now b) l).count_eq t
  simp only [groupOf_bucketTrades]
  have hother : ∀ j, j ≠ t.item →
      t ∉ ((sortTrades now l).filter (fun u => decide (u.item = j) && isWin tol u)) ∧
      t ∉ ((sortTrades now l).filter (fun u => decide (u.item = j) && isBE tol u)) ∧
      t ∉ ((sortTrades now l).filter (fun u => decide (u.item = j) && isLose tol u)) := by
    intro j hj
    have hdj : decide (t.item = j) = false := decide_eq_false (fun h => hj h.symm)
    refine ⟨?_, ?_, ?_⟩ <;> simp [List.mem_filter, hdj]
  by_cases hw : q < p
  · have bw : isWin tol t = true := by simp [isWin, jsGt, htol, hp, hw]
    have bbe : isBE tol t = false := by simp [isBE, jsGt, htol, hp, hw]
    have bl : isLose tol t = false := by simp [isLose, jsGt, htol, hp, hw]
    have cw : ((sortTrades now l).filter
        (fun u => decide (u.item = t.item) && isWin tol u)).count t = l.count t := by
      rw [count_filter_eq]
      simp [bw, hsc]
    have cbe : ((sortTrades now l).filter
        (fun u => decide (u.item = t.item) && isBE tol u)).count t = 0 := by
      rw [count_filter_eq]
      simp [bbe]
    have cl : ((sortTrades now l).filter
        (fun u => decide (u.item = t.item) && isLose tol u)).count t = 0 := by
      rw [count_filter_eq]
      simp [bl]
    refine ⟨by rw [cw, cbe, cl]; omega, fun _ => ⟨cw, cbe, cl⟩, ?_, ?_, hother⟩
    · rintro ⟨-, hple⟩
      exact absurd hw (not_lt.mpr hple)
    · intro hlt
      exact absurd hw (by linarith)
  · have hple : p ≤ q := not_lt.mp hw
    by_cases hbe : -q ≤ p
    · have bw : isWin tol t = false := by simp [isWin, jsGt, htol, hp, hw]
      have bbe : isBE tol t = true := by
        simp [isBE, jsGt, jsGe, jsLe, jsNeg, htol, hp, hw, hbe, hple]
      have bl : isLose tol t = false := by
        simp [isLose, jsGt, jsGe, jsLe, jsNeg, htol, hp, hw, hbe, hple]
      have cw : ((sortTrades now l).filter
          (fun u => decide (u.item = t.item) && isWin tol u)).count t = 0 := by
        rw [count_filter_eq]
        simp [bw]
      have cbe : ((sortTrades now l).filter
          (fun u => decide (u.item = t.item) && isBE tol u)).count t = l.count t := by
        rw [count_filter_eq]
        simp [bbe, hsc]
      have cl : ((sortTrades now l).filter
          (fun u => decide (u.item = t.item) && isLose tol u)).count t = 0 := by
        rw [count_filter_eq]
        simp [bl]
      refine ⟨by rw [cw, cbe, cl]; omega, ?_, fun _ => ⟨cw, cbe, cl⟩, ?_, hother⟩
      · intro hlt
        exact absurd hlt (not_lt.mpr hple)
      · intro hlt
        exact absurd hbe (not_le.mpr hlt)
    · have hplt : p < -q := not_le.mp hbe
      have bw : isWin tol t = false := by simp [isWin, jsGt, htol, hp, hw]
      have bbe : isBE tol t = false := by
        simp [isBE, jsGt, jsGe, jsLe, jsNeg, htol, hp, hbe]
      have bl : isLose tol t = true := by
        simp [isLose, jsGt, jsGe, jsLe, jsNeg, htol, hp, hw, hbe]
      have cw : ((sortTrades now l).filter
          (fun u => decide (u.item = t.item) && isWin tol u)).count t = 0 := by
        rw [count_filter_eq]
        simp [bw]
      have cbe : ((sortTrades now l).filter
          (fun u => decide (u.item = t.item) && isBE tol u)).count t = 0 := by
        rw [count_filter_eq]
        simp [bbe]
      have cl : ((sortTrades now l).filter
          (fun u => decide (u.item = t.item) && isLose tol u)).count t = l.count t := by
        rw [count_filter_eq]
        simp [bl, hsc]
      refine ⟨by rw [cw, cbe, cl]; omega, ?_, ?_, fun _ => ⟨cw, cbe, cl⟩, hother⟩
      · intro hlt
        exact absurd hlt (not_lt.mpr hple)
      · rintro ⟨hge, -⟩
        exact absurd hge (not_le.mpr hplt)

/-- Witness for C2 at the boundary scenario: tolerance `5`, profit exactly
`5` — the trade is not a winner and not a loser (it lands in breakeven). -/
theorem classification_partitions_by_profit_witness :
    (groupOf (bucketTrades (sortTrades 0 [tEdge]) (some 5)) tEdge.item).winners.count tEdge
        = 0 ∧
      (groupOf (bucketTrades (sortTrades 0 [tEdge]) (some 5)) tEdge.item).breakeven.count tEdge
        = [tEdge].count tEdge ∧
      (groupOf (bucketTrades (sortTrades 0 [tEdge]) (some 5)) tEdge.item).losers.count tEdge
        = 0 :=
  (classification_partitions_by_profit 0 [tEdge] (some 5) 5 tEdge 5 rfl (by norm_num)
      rfl).2.2.1 ⟨by norm_num, by norm_num⟩

/-! ## The winners map: per-key projection and well-formedness -/

theorem mapGet_mapSet (m : WinnersMap) (k k' : String × JSNum) (v : Trade) :
    mapGet (mapSet m k v) k' = if k = k' then some v else mapGet m k' := by
  induction m with
  | nil => by_cases h : k = k' <;> simp [mapSet, mapGet, h]
  | cons e m ih =>
    obtain ⟨ke, ve⟩ := e
    by_cases hek : ke = k
    · subst hek
      by_cases h : ke = k' <;> simp [mapSet, mapGet, h]
    · by_cases h : ke = k'
      · subst h
        have hkk : ¬k = ke := fun hh => hek hh.symm
        simp [mapSet, mapGet, hek, hkk]
      · simp [mapSet, mapGet, hek, h, ih]

theorem mapGet_dedupStep (m : WinnersMap) (w : Trade) (k : String × JSNum) :
    mapGet (dedupStep m w) k =
      if dedupKey w = k then keepStep (mapGet m (dedupKey w)) w else mapGet m k := by
  rw [dedupStep]
  cases hg : mapGet m (dedupKey w) with
  | none => simp [mapGet_mapSet, keepStep]
  | some ex =>
    by_cases hgt : jsGt w.profit ex.profit
    · simp [hgt, mapGet_mapSet, keepStep]
    · simp only [hgt, if_neg, Bool.false_eq_true, if_false, keepStep]
      by_cases hk : dedupKey w = k
      · rw [if_pos hk, ← hk, hg]
      · rw [if_neg hk]

theorem mapGet_foldl_dedup (k : String × JSNum) :
    ∀ (ws : List Trade) (m : WinnersMap),
      mapGet (ws.foldl dedupStep m) k =
        keepFoldFrom (mapGet m k) (ws.filter (fun w => decide (dedupKey w = k)))
  | [], m => by simp [keepFoldFrom]
  | w :: ws, m => by
    rw [List.foldl_cons, mapGet_foldl_dedup k ws (dedupStep m w)]
    by_cases hk : dedupKey w = k
    · rw [List.filter_cons_of_pos (by simpa using hk), mapGet_dedupStep, if_pos hk, hk]
      simp [keepFoldFrom]
    · rw [List.filter_cons_of_neg (by simpa using hk), mapGet_dedupStep, if_neg hk]

theorem mapGet_dedupFold (ws : List Trade) (k : String × JSNum) :
    mapGet (dedupFold ws) k =
      keepFold (ws.filter (fun w => decide (dedupKey w = k))) := by
  rw [dedupFold, mapGet_foldl_dedup]
  rfl

/-! ## The keep-the-most-profitable fold -/

theorem keepFoldFrom_some :
    ∀ (l : List Trade) (x : Trade), ∃ m, keepFoldFrom (some x) l = some m
  | [], x => ⟨x, rfl⟩
  | w :: l, x => by
    by_cases h : jsGt w.profit x.profit
    · simpa [keepFoldFrom, keepStep, h] using keepFoldFrom_some l w
    · simpa [keepFoldFrom, keepStep, h] using keepFoldFrom_some l x

theorem keepFoldFrom_mem :
    ∀ (l : List Trade) (o : Option Trade) (m : Trade),
      keepFoldFrom o l = some m → o = some m ∨ m ∈ l
  | [], _, m, h => Or.inl (by simpa [keepFoldFrom] using h)
  | w :: l, o, m, h => by
    rw [keepFoldFrom, List.foldl_cons] at h
    rcases keepFoldFrom_mem l (keepStep o w) m h with h' | h'
    · cases o with
      | none =>
        right
        have : w = m := by simpa [keepStep] using h'
        rw [← this]
        exact List.mem_cons_self w l
      | some ex =>
        by_cases hg : jsGt w.profit ex.profit
        · right
          have : w = m := by simpa [keepStep, hg] using h'
          rw [← this]
          exact List.mem_cons_self w l
        · left
          have : ex = m := by simpa [keepStep, hg] using h'
          rw [this]
    · exact Or.inr (List.mem_cons_of_mem w h')

theorem keepFoldFrom_nan :
    ∀ (l : List Trade) (x : Trade), x.profit = none → keepFoldFrom (some x) l = some x
  | [], _, _ => rfl
  | w :: l, x, hx => by
    have hgf : jsGt w.profit x.profit = false := by
      rw [hx]
      cases w.profit <;> rfl
    rw [keepFoldFrom, List.foldl_cons]
    have hstep : keepStep (some x) w = some x := by simp [keepStep, hgf]
    rw [hstep]
    exact keepFoldFrom_nan l x hx

/-- If `a` strictly beats `b` but does not beat `c`, then `b` does not
beat `c` either. -/
theorem jsGt_chain1 (a b c : JSNum) (h1 : jsGt a b = true) (h2 : jsGt a c = false) :
    jsGt b c = false := by
  rcases a with _ | pa <;> rcases b with _ | pb
  · simp [jsGt] at h1
  · simp [jsGt] at h1
  · simp [jsGt] at h1
  · rcases c with _ | pc
    · rfl
    · simp only [jsGt, decide_eq_true_eq, decide_eq_false_iff_not] at h1 h2 ⊢
      intro hc
      exact h2 (lt_trans hc h1)

/-- If `a` does not beat a non-`NaN` `b`, and `b` does not beat `c`, then
`a` does not beat `c`. -/
theorem jsGt_chain2 (a b c : JSNum) (pb : ℚ) (hb : b = some pb)
    (h1 : jsGt a b = false) (h2 : jsGt b c = false) : jsGt a c = false := by
  subst hb
  rcases a with _ | pa
  · rfl
  · rcases c with _ | pc
    · rfl
    · simp only [jsGt, decide_eq_true_eq, decide_eq_false_iff_not] at h1 h2 ⊢
      intro hc
      exact h1 (lt_of_le_of_lt (not_lt.mp h2) hc)

theorem keepFoldFrom_not_beaten :
    ∀ (l : List Trade) (o : Option Trade) (m : Trade),
      keepFoldFrom o l = some m →
      (∀ u ∈ l, jsGt u.profit m.profit = false) ∧
      (∀ x, o = some x → jsGt x.profit m.profit = false)
  | [], o, m, h => by
    have ho : o = some m := by simpa [keepFoldFrom] using h
    refine ⟨fun u hu => absurd hu (List.not_mem_nil u), fun x hx => ?_⟩
    rw [hx] at ho
    have hxm : x = m := by injection ho
    rw [hxm]
    exact jsGt_irrefl _
  | w :: l, o, m, h => by
    rw [keepFoldFrom, List.foldl_cons] at h
    have IH := keepFoldFrom_not_beaten l (keepStep o w) m h
    have hwm : jsGt w.profit m.profit = false ∧
        (∀ x, o = some x → jsGt x.profit m.profit = false) := by
      cases o with
      | none =>
        refine ⟨IH.2 w (by rfl), fun x hx => by cases hx⟩
      | some ex =>
        by_cases hg : jsGt w.profit ex.profit
        · have hwmf : jsGt w.profit m.profit = false := IH.2 w (by simp [keepStep, hg])
          refine ⟨hwmf, fun x hx => ?_⟩
          have hxe : ex = x := by injection hx
          rw [← hxe]
          exact jsGt_chain1 w.profit ex.profit m.profit hg hwmf
        · have hexm : jsGt ex.profit m.profit = false := IH.2 ex (by simp [keepStep, hg])
          refine ⟨?_, fun x hx => ?_⟩
          · rcases hex : ex.profit with _ | pe
            · have habs : keepFoldFrom (some ex) l = some ex := keepFoldFrom_nan l ex hex
              rw [keepFoldFrom] at habs
              have hstep : keepStep (some ex) w = some ex := by simp [keepStep, hg]
              rw [hstep, habs] at h
              have hme : ex = m := by injection h
              rw [← hme, hex]
              cases w.profit <;> rfl
            · exact jsGt_chain2 w.profit ex.profit m.profit pe hex
                (Bool.eq_false_iff.mpr hg) hexm
          · have hxe : ex = x := by injection hx
            rw [← hxe]
            exact hexm
    exact ⟨fun u hu => by
      rcases List.mem_cons.mp hu with rfl | hu'
      · exact hwm.1
      · exact IH.1 u hu', hwm.2⟩

theorem keepFoldFrom_fixed :
    ∀ (l : List Trade) (t : Trade),
      (∀ u ∈ l, jsGt u.profit t.profit = false) → keepFoldFrom (some t) l = some t
  | [], _, _ => rfl
  | w :: l, t, h => by
    rw [keepFoldFrom, List.foldl_cons]
    have hstep : keepStep (some t) w = some t := by
      simp [keepStep, h w (List.mem_cons_self w l)]
    rw [hstep]
    exact keepFoldFrom_fixed l t fun u hu => h u (List.mem_cons_of_mem w hu)

theorem keepFoldFrom_firstMax :
    ∀ (a : List Trade) (o : Option Trade) (t : Trade) (b : List Trade),
      (∀ u ∈ a, jsGt t.profit u.profit = true) →
      (∀ x, o = some x → jsGt t.profit x.profit = true) →
      (∀ u ∈ b, jsGt u.profit t.profit = false) →
      keepFoldFrom o (a ++ t :: b) = some t
  | [], o, t, b, _, ho, hb => by
    rw [List.nil_append, keepFoldFrom, List.foldl_cons]
    have hstep : keepStep o t = some t := by
      cases o with
      | none => rfl
      | some x =>
        simp [keepStep, ho x rfl]
    rw [hstep]
    exact keepFoldFrom_fixed b t hb
  | w :: a, o, t, b, ha, ho, hb => by
    rw [List.cons_append, keepFoldFrom, List.foldl_cons]
    refine keepFoldFrom_firstMax a (keepStep o w) t b
      (fun u hu => ha u (List.mem_cons_of_mem w hu)) ?_ hb
    intro x hx
    cases o with
    | none =>
      have : w = x := by simpa [keepStep] using hx
      rw [← this]
      exact ha w (List.mem_cons_self w a)
    | some ex =>
      by_cases hg : jsGt w.profit ex.profit
      · have : w = x := by simpa [keepStep, hg] using hx
        rw [← this]
        exact ha w (List.mem_cons_self w a)
      · have : ex = x := by simpa [keepStep, hg] using hx
        rw [← this]
        exact ho ex rfl

/-! ## Well-formedness of the dedup map -/

theorem mapSet_keys (m : WinnersMap) (k : String × JSNum) (v : Trade) :
    (mapSet m k v).map (fun e => e.1) =
      if k ∈ m.map (fun e => e.1) then m.map (fun e => e.1)
      else m.map (fun e => e.1) ++ [k] := by
  induction m with
  | nil => simp [mapSet]
  | cons e m ih =>
    obtain ⟨ke, ve⟩ := e
    by_cases h : ke = k
    · subst h
      simp [mapSet]
    · have hkk : ¬k = ke := fun hh => h hh.symm
      by_cases hm : k ∈ m.map (fun e => e.1) <;> simp [mapSet, h, hkk, hm, ih]

theorem mapSet_entries (m : WinnersMap) (k : String × JSNum) (v : Trade) :
    ∀ e ∈ mapSet m k v, e ∈ m ∨ e = (k, v) := by
  induction m with
  | nil => simp [mapSet]
  | cons e0 m ih =>
    obtain ⟨ke, ve⟩ := e0
    intro e he
    by_cases h : ke = k
    · subst h
      rw [mapSet, if_pos rfl] at he
      rcases List.mem_cons.mp he with rfl | he'
      · exact Or.inr rfl
      · exact Or.inl (List.mem_cons_of_mem _ he')
    · rw [mapSet, if_neg h] at he
      rcases List.mem_cons.mp he with rfl | he'
      · exact Or.inl (List.mem_cons_self _ _)
      · rcases ih e he' with h' | h'
        · exact Or.inl (List.mem_cons_of_mem _ h')
        · exact Or.inr h'

theorem mapSet_wf (m : WinnersMap) (k : String × JSNum) (v : Trade)
    (hv : dedupKey v = k) (h : mapWF m) : mapWF (mapSet m k v) := by
  constructor
  · rw [mapSet_keys]
    by_cases hm : k ∈ m.map (fun e => e.1)
    · rw [if_pos hm]
      exact h.1
    · rw [if_neg hm]
      simp [List.nodup_append, h.1, hm]
  · intro e he
    rcases mapSet_entries m k v e he with h' | h'
    · exact h.2 e h'
    · rw [h']
      exact hv

theorem dedupStep_wf (m : WinnersMap) (w : Trade) (h : mapWF m) : mapWF (dedupStep m w) := by
  rw [dedupStep]
  cases mapGet m (dedupKey w) with
  | none => exact mapSet_wf m _ w rfl h
  | some ex =>
    dsimp only
    by_cases hg : jsGt w.profit ex.profit
    · rw [if_pos hg]
      exact mapSet_wf m _ w rfl h
    · rw [if_neg hg]
      exact h

theorem dedupFold_wf_aux : ∀ (ws : List Trade) (m : WinnersMap),
    mapWF m → mapWF (ws.foldl dedupStep m)
  | [], _, h => h
  | w :: ws, m, h => by
    rw [List.foldl_cons]
    exact dedupFold_wf_aux ws (dedupStep m w) (dedupStep_wf m w h)

theorem dedupFold_wf (ws : List Trade) : mapWF (dedupFold ws) :=
  dedupFold_wf_aux ws [] ⟨List.nodup_nil, fun e he => absurd he (List.not_mem_nil e)⟩

theorem mapGet_mem : ∀ (m : WinnersMap) (k : String × JSNum) (t : Trade),
    mapGet m k = some t → (k, t) ∈ m
  | [], _, _, h => by cases h
  | (ke, ve) :: m, k, t, h => by
    rw [mapGet] at h
    by_cases hk : ke = k
    · rw [if_pos hk] at h
      have hvt : ve = t := by injection h
      rw [← hk, ← hvt]
      exact List.mem_cons_self _ _
    · rw [if_neg hk] at h
      exact List.mem_cons_of_mem _ (mapGet_mem m k t h)

theorem mem_mapGet : ∀ (m : WinnersMap), (m.map (fun e => e.1)).Nodup →
    ∀ (k : String × JSNum) (t : Trade), (k, t) ∈ m → mapGet m k = some t
  | [], _, k, t, h => absurd h (List.not_mem_nil (k, t))
  | (ke, ve) :: m, hnd, k, t, h => by
    rcases List.mem_cons.mp h with heq | hm
    · injection heq with h1 h2
      subst h1
      subst h2
      rw [mapGet, if_pos rfl]
    · have hkm : k ∈ m.map (fun e => e.1) := List.mem_map_of_mem (fun e => e.1) hm
      by_cases hk : ke = k
      · exact absurd (hk ▸ hkm) (List.nodup_cons.mp hnd).1
      · rw [mapGet, if_neg hk]
        exact mem_mapGet m (List.nodup_cons.mp hnd).2 k t hm

/-- The values of a well-formed map, filtered to one key, are exactly the
entry stored at that key. -/
theorem values_filter_eq : ∀ (m : WinnersMap), mapWF m →
    ∀ (k : String × JSNum) (t : Trade), mapGet m k = some t →
      (m.map (fun e => e.2)).filter (fun u => decide (dedupKey u = k)) = [t]
  | [], _, k, t, h => by cases h
  | (ke, ve) :: m, hwf, k, t, h => by
    have hke : dedupKey ve = ke := hwf.2 (ke, ve) (List.mem_cons_self _ _)
    have hwf' : mapWF m :=
      ⟨(List.nodup_cons.mp hwf.1).2, fun e he => hwf.2 e (List.mem_cons_of_mem _ he)⟩
    rw [mapGet] at h
    by_cases hk : ke = k
    · rw [if_pos hk] at h
      have hvt : ve = t := by injection h
      have hnot : ∀ u ∈ m.map (fun e => e.2), decide (dedupKey u = k) = false := by
        intro u hu
        rcases List.mem_map.mp hu with ⟨e, he, rfl⟩
        have : dedupKey e.2 = e.1 := hwf.2 e (List.mem_cons_of_mem _ he)
        rw [this]
        refine decide_eq_false fun hek => ?_
        have hkm : ke ∉ m.map (fun x => x.1) := (List.nodup_cons.mp hwf.1).1
        exact hkm (hk ▸ hek ▸ List.mem_map_of_mem (fun x => x.1) he)
      rw [List.map_cons, List.filter_cons_of_pos (by simp [hke, hk]), hvt]
      rw [List.filter_eq_nil_iff.mpr ?_]
      intro u hu
      rw [hnot u hu]
      simp
    · rw [if_neg hk] at h
      have hvk : decide (dedupKey ve = k) = false := by
        rw [hke]
        exact decide_eq_false hk
      rw [List.map_cons, List.filter_cons_of_neg (by simp [hvk])]
      exact values_filter_eq m hwf' k t h

theorem jsGt_some (a b : JSNum) (h : jsGt a b = true) :
    ∃ x y, a = some x ∧ b = some y ∧ y < x := by
  rcases a with _ | x <;> rcases b with _ | y <;> simp [jsGt] at h ⊢
  exact h

theorem keepFold_of_ne_nil (l : List Trade) (h : l ≠ []) : ∃ m, keepFold l = some m := by
  cases l with
  | nil => exact absurd rfl h
  | cons w l =>
    rw [keepFold, keepFoldFrom, List.foldl_cons]
    exact keepFoldFrom_some l w

/-! ## C10 -/

/-- C10: the dedup loop keeps, for each key, the earliest trade among
those tied for the highest profit: if the same-key subsequence splits as
`a ++ t :: b` where `t` strictly beats everything before it and nothing
after it beats `t` (equal profits allowed after), then the map holds `t`
for that key and the final winners list contains exactly `t` for it —
later equal-profit duplicates are discarded. -/
theorem dedup_tie_keeps_earliest (now : Int) (ws : List Trade) (k : String × JSNum)
    (a b : List Trade) (t : Trade)
    (hsplit : ws.filter (fun w => decide (dedupKey w = k)) = a ++ t :: b)
    (ha : ∀ u ∈ a, jsGt t.profit u.profit = true)
    (hb : ∀ u ∈ b, jsGt u.profit t.profit = false) :
    mapGet (dedupFold ws) k = some t ∧
    (dedupWinners now ws).filter (fun u => decide (dedupKey u = k)) = [t] := by
  have hget : mapGet (dedupFold ws) k = some t := by
    rw [mapGet_dedupFold, hsplit]
    exact keepFoldFrom_firstMax a none t b ha (fun x hx => by cases hx) hb
  refine ⟨hget, ?_⟩
  have hv : ((dedupFold ws).map (fun e => e.2)).filter
      (fun u => decide (dedupKey u = k)) = [t] :=
    values_filter_eq (dedupFold ws) (dedupFold_wf ws) k t hget
  have hperm :
      ((dedupWinners now ws).filter (fun u => decide (dedupKey u = k))).Perm
        (((dedupFold ws).map (fun e => e.2)).filter (fun u => decide (dedupKey u = k))) := by
    rw [dedupWinners]
    exact (List.perm_insertionSort _ _).filter _
  rw [hv] at hperm
  exact List.perm_singleton.mp hperm

/-- Witness for C10: two same-key trades tied at profit `7`; the earlier
one survives, the later duplicate is discarded. -/
theorem dedup_tie_keeps_earliest_witness :
    mapGet (dedupFold [tTie1, tTie2]) (dedupKey tTie1) = some tTie1 ∧
    (dedupWinners 0 [tTie1, tTie2]).filter
      (fun u => decide (dedupKey u = dedupKey tTie1)) = [tTie1] :=
  dedup_tie_keeps_earliest 0 [tTie1, tTie2] (dedupKey tTie1) [] [tTie2] tTie1
    (by decide) (by decide) (by decide)

/-! ## C3 -/

/-- C3: relative to the bucketed (pre-dedup) groups, `classifyAndGroupTrades`
leaves every breakeven and losers list untouched, while each returned
winners list carries pairwise-distinct dedup keys `(openTimeRaw,
openPrice)`, contains only bucketed winning trades each of which has the
highest profit among the bucketed winners sharing its key, and covers
every key occurring among the bucketed winners. -/
theorem winners_deduplicated (now : Int) (l : List Trade) (tol : JSNum) (i : String) :
    (groupOf ((classifyAndGroupTrades now l tol).1) i).breakeven =
      (groupOf (bucketTrades (sortTrades now l) tol) i).breakeven ∧
    (groupOf ((classifyAndGroupTrades now l tol).1) i).losers =
      (groupOf (bucketTrades (sortTrades now l) tol) i).losers ∧
    ((groupOf ((classifyAndGroupTrades now l tol).1) i).winners.map dedupKey).Nodup ∧
    (∀ t ∈ (groupOf ((classifyAndGroupTrades now l tol).1) i).winners,
      t ∈ (groupOf (bucketTrades (sortTrades now l) tol) i).winners ∧
      ∃ p, t.profit = some p ∧
        ∀ u ∈ (groupOf (bucketTrades (sortTrades now l) tol) i).winners,
          dedupKey u = dedupKey t → ∃ q, u.profit = some q ∧ q ≤ p) ∧
    (∀ u ∈ (groupOf (bucketTrades (sortTrades now l) tol) i).winners,
      ∃ t ∈ (groupOf ((classifyAndGroupTrades now l tol).1) i).winners,
        dedupKey t = dedupKey u) := by
  have hcg : (classifyAndGroupTrades now l tol).1 =
      dedupGroups now (bucketTrades (sortTrades now l) tol) := rfl
  rw [hcg, groupOf_dedupGroups]
  have hwf := dedupFold_wf (groupOf (bucketTrades (sortTrades now l) tol) i).winners
  have hpreW : (groupOf (bucketTrades (sortTrades now l) tol) i).winners =
      (sortTrades now l).filter (fun t => decide (t.item = i) && isWin tol t) := by
    rw [groupOf_bucketTrades]
  refine ⟨rfl, rfl, ?_, ?_, ?_⟩
  · have hkeys :
        (((dedupFold (groupOf (bucketTrades (sortTrades now l) tol) i).winners).map
            (fun e => e.2)).map dedupKey) =
          (dedupFold (groupOf (bucketTrades (sortTrades now l) tol) i).winners).map
            (fun e => e.1) := by
      rw [List.map_map]
      exact List.map_congr_left fun e he => hwf.2 e he
    have hperm :
        ((dedupWinners now (groupOf (bucketTrades (sortTrades now l) tol) i).winners).map
            dedupKey).Perm
          (((dedupFold (groupOf (bucketTrades (sortTrades now l) tol) i).winners).map
              (fun e => e.2)).map dedupKey) := by
      rw [dedupWinners]
      exact (List.perm_insertionSort _ _).map _
    rw [hkeys] at hperm
    exact hperm.nodup_iff.mpr hwf.1
  · intro t ht
    have htv : t ∈ (dedupFold (groupOf (bucketTrades (sortTrades now l) tol) i).winners).map
        (fun e => e.2) := by
      rw [dedupWinners] at ht
      exact (List.perm_insertionSort _ _).mem_iff.mp ht
    rcases List.mem_map.mp htv with ⟨e, he, het⟩
    have hkey : dedupKey t = e.1 := by rw [← het]; exact hwf.2 e he
    have hmem : (dedupKey t, t) ∈
        dedupFold (groupOf (bucketTrades (sortTrades now l) tol) i).winners := by
      rw [hkey, ← het]
      exact he
    have hget := mem_mapGet _ hwf.1 (dedupKey t) t hmem
    rw [mapGet_dedupFold] at hget
    have hfm := keepFoldFrom_mem _ none t hget
    have htf : t ∈ ((groupOf (bucketTrades (sortTrades now l) tol) i).winners.filter
        (fun w => decide (dedupKey w = dedupKey t))) := by
      rcases hfm with h' | h'
      · cases h'
      · exact h'
    have htw : t ∈ (groupOf (bucketTrades (sortTrades now l) tol) i).winners :=
      List.mem_of_mem_filter htf
    have hbeat := (keepFoldFrom_not_beaten _ none t hget).1
    have hwin : isWin tol t = true := by
      have := List.mem_filter.mp (hpreW ▸ htw)
      exact ((Bool.and_eq_true _ _).mp this.2).2
    rcases jsGt_some _ _ hwin with ⟨p, _, hp, _⟩
    refine ⟨htw, p, hp, ?_⟩
    intro u hu hku
    have huf : u ∈ ((groupOf (bucketTrades (sortTrades now l) tol) i).winners.filter
        (fun w => decide (dedupKey w = dedupKey t))) :=
      List.mem_filter.mpr ⟨hu, by simp [hku]⟩
    have hub : jsGt u.profit t.profit = false := hbeat u huf
    have huwin : isWin tol u = true := by
      have := List.mem_filter.mp (hpreW ▸ hu)
      exact ((Bool.and_eq_true _ _).mp this.2).2
    rcases jsGt_some _ _ huwin with ⟨q, _, hq, _⟩
    refine ⟨q, hq, ?_⟩
    rw [hp, hq] at hub
    simpa [jsGt, not_lt] using hub
  · intro u hu
    have hne : ((groupOf (bucketTrades (sortTrades now l) tol) i).winners.filter
        (fun w => decide (dedupKey w = dedupKey u))) ≠ [] := by
      intro hnil
      have : u ∈ ((groupOf (bucketTrades (sortTrades now l) tol) i).winners.filter
          (fun w => decide (dedupKey w = dedupKey u))) :=
        List.mem_filter.mpr ⟨hu, by simp⟩
      rw [hnil] at this
      exact absurd this (List.not_mem_nil u)
    rcases keepFold_of_ne_nil _ hne with ⟨t, hkf⟩
    have hget : mapGet (dedupFold (groupOf (bucketTrades (sortTrades now l) tol) i).winners)
        (dedupKey u) = some t := by
      rw [mapGet_dedupFold, hkf]
    have hmem := mapGet_mem _ _ _ hget
    have htv : t ∈ (dedupFold (groupOf (bucketTrades (sortTrades now l) tol) i).winners).map
        (fun e => e.2) := by
      exact List.mem_map_of_mem (fun e => e.2) hmem
    refine ⟨t, ?_, ?_⟩
    · rw [dedupWinners]
      exact (List.perm_insertionSort _ _).mem_iff.mpr htv
    · exact hwf.2 (dedupKey u, t) hmem

/-- Witness for C3 at the dedup scenario from the spec: profits 10 and 15
sharing a key — the kept winner has the highest profit for the key, and
breakeven/losers are untouched. -/
theorem winners_deduplicated_witness :
    tDup2 ∈ (groupOf ((classifyAndGroupTrades 0 [tDup1, tDup2] (some 0)).1) "x").winners ∧
    (tDup2 ∈ (groupOf (bucketTrades (sortTrades 0 [tDup1, tDup2]) (some 0)) "x").winners ∧
      ∃ p, tDup2.profit = some p ∧
        ∀ u ∈ (groupOf (bucketTrades (sortTrades 0 [tDup1, tDup2]) (some 0)) "x").winners,
          dedupKey u = dedupKey tDup2 → ∃ q, u.profit = some q ∧ q ≤ p) ∧
    (groupOf ((classifyAndGroupTrades 0 [tDup1, tDup2] (some 0)).1) "x").breakeven =
      (groupOf (bucketTrades (sortTrades 0 [tDup1, tDup2]) (some 0)) "x").breakeven :=
  ⟨by decide, (winners_deduplicated 0 [tDup1, tDup2] (some 0) "x").2.2.2.1 tDup2 (by decide),
    (winners_deduplicated 0 [tDup1, tDup2] (some 0) "x").1⟩

/-! ## C8 -/

theorem digitChar_isDigit : ∀ d : Nat, d < 10 → (Nat.digitChar d).isDigit = true := by
  decide

theorem string_foldl_join (f : Trade → String) (l : List Trade) :
    l.foldl (fun acc t => acc ++ f t) "" = String.join (l.map f) := by
  rw [String.join, List.foldl_map]

/-- C8 (amended): the generated script is the fixed header followed by the
winner blocks, then the breakeven blocks, then the loser blocks, each in
its list's order; every winner block is its comment plus exactly two
`label.new` marker statements and one `line.new` connecting statement,
every breakeven and loser block its comment plus exactly one `label.new`
statement; the tooltip of each *label* statement embeds the ticket, the
side, and the profit formatted to exactly two decimal places.  Contrary to
the claim, the connecting `line.new` statement carries no tooltip (see the
counterexample). -/
theorem generated_script_structure (now : Int) (item : String) (data : TradeGroup) :
    generatePineScriptForItem now item data =
      pineHeader item ++ String.join (data.winners.map (winnerBlock now)) ++
        String.join (data.breakeven.map (breakevenBlock now)) ++
        String.join (data.losers.map (loserBlock now)) ∧
    (∀ t : Trade,
      winnerBlock now t =
        winnerComment t ++ ("    label.new(" ++ winnerLabelOpenRest now t) ++
          ("    label.new(" ++ winnerLabelCloseRest now t) ++
          ("    line.new(" ++ winnerLineRest now t)) ∧
    (∀ t : Trade,
      breakevenBlock now t =
        breakevenComment t ++ ("    label.new(" ++ breakevenLabelRest now t)) ∧
    (∀ t : Trade,
      loserBlock now t = loserComment t ++ ("    label.new(" ++ loserLabelRest now t)) ∧
    (∀ t : Trade, ∃ a b : String,
      winnerLabelOpenRest now t = a ++ (tooltipOf t ++ b)) ∧
    (∀ t : Trade, ∃ a b : String,
      winnerLabelCloseRest now t = a ++ (tooltipOf t ++ b)) ∧
    (∀ t : Trade, ∃ a b : String,
      breakevenLabelRest now t = a ++ (tooltipOf t ++ b)) ∧
    (∀ t : Trade, ∃ a b : String, loserLabelRest now t = a ++ (tooltipOf t ++ b)) ∧
    (∀ t : Trade,
      tooltipOf t =
        "Ticket: " ++ (t.ticket ++ ("\\nType: " ++ (t.type.toStr ++
          ("\\nProfit: " ++ jsToFixed2 t.profit))))) ∧
    (∀ q : ℚ, ∃ (m : String) (d1 d2 : Char),
      jsToFixed2 (some q) = m ++ ("." ++ String.mk [d1, d2]) ∧
      d1.isDigit = true ∧ d2.isDigit = true) := by
  refine ⟨?_, ?_, ?_, ?_, ?_, ?_, ?_, ?_, ?_, ?_⟩
  · rw [generatePineScriptForItem, string_foldl_join, string_foldl_join, string_foldl_join]
  · intro t
    rw [winnerBlock]
    simp only [winnerLabelOpen, winnerLabelOpenRest, winnerLabelClose, winnerLabelCloseRest,
      winnerLine, winnerLineRest, String.append_assoc]
  · intro t
    rw [breakevenBlock]
    simp only [breakevenLabel, breakevenLabelRest, String.append_assoc]
  · intro t
    rw [loserBlock]
    simp only [loserLabel, loserLabelRest, String.append_assoc]
  · intro t
    refine ⟨tsCall (openTS now t) ++ (", " ++ (jsNumToStr t.openPrice ++
      ", style=label.style_diamond, color=color.new(color.green, 20), textcolor=color.green, size=iconSize, tooltip=\"")),
      "\", xloc=xloc.bar_time, yloc=yloc.price)\n", ?_⟩
    simp only [winnerLabelOpenRest, String.append_assoc]
  · intro t
    refine ⟨tsCall (closeTS now t) ++ (", " ++ (jsNumToStr t.closePrice ++
      ", style=label.style_diamond, color=color.new(color.green, 20), textcolor=color.green, size=iconSize, tooltip=\"")),
      "\", xloc=xloc.bar_time, yloc=yloc.price)\n", ?_⟩
    simp only [winnerLabelCloseRest, String.append_assoc]
  · intro t
    refine ⟨tsCall (openTS now t) ++ (", " ++ (jsNumToStr t.openPrice ++
      ", style=label.style_circle, color=color.new(color.blue, 20), textcolor=color.blue, size=iconSize, tooltip=\"")),
      "\", xloc=xloc.bar_time, yloc=yloc.price)\n", ?_⟩
    simp only [breakevenLabelRest, String.append_assoc]
  · intro t
    refine ⟨tsCall (openTS now t) ++ (", " ++ (jsNumToStr t.openPrice ++ (", style=" ++
      (loserStyle t ++
        ", color=color.new(color.red, 20), textcolor=color.red, size=iconSize, tooltip=\"")))),
      "\", xloc=xloc.bar_time, yloc=yloc.price)\n", ?_⟩
    simp only [loserLabelRest, String.append_assoc]
  · intro t
    rw [tooltipOf]
    simp only [String.append_assoc]
  · intro q
    refine ⟨(if q < 0 then "-" else "") ++ toString ((⌊|q| * 100 + 1 / 2⌋).toNat / 100),
      Nat.digitChar ((⌊|q| * 100 + 1 / 2⌋).toNat % 100 / 10 % 10),
      Nat.digitChar ((⌊|q| * 100 + 1 / 2⌋).toNat % 100 % 10), ?_, ?_, ?_⟩
    · simp only [jsToFixed2, ratToFixed2, pad2, String.append_assoc]
    · exact digitChar_isDigit _ (Nat.mod_lt _ (by norm_num))
    · exact digitChar_isDigit _ (Nat.mod_lt _ (by norm_num))

/-- Counterexample to C8 as stated: the claim says every statement's
tooltip embeds the trade data, but the connecting `line.new` statement of
a winner carries no tooltip argument at all — its text does not even
contain the word `tooltip`, while both marker statements do. -/
theorem winner_line_has_no_tooltip :
    strContains (winnerLine 0 tNaN) "tooltip" = false ∧
    strContains (winnerLabelOpen 0 tNaN) "tooltip" = true ∧
    strContains (winnerLabelClose 0 tNaN) "tooltip" = true := by decide

end MT4
